import Mathlib

/-!
# Verification of the RZ9 leaderboard core (`src/rz9/rz9Utils.js`)

Shallow embedding of the practice-record aggregation stage, the decayed
logistic rating engine (`computePlayerRating`), and the leaderboard builder
(`toLeaderboard`), together with proofs and refutations of the specified
properties.

Modelling conventions:
* JS numbers appearing in data are idealised as rationals (`ℚ`); the special
  IEEE values `NaN`, `+Infinity`, `-Infinity` that `scores / reps` can
  produce are represented by the dedicated type `JSNum`.
* The rating itself is a real number (`ℝ`), because the update uses the
  transcendental functions `Math.pow` / `Math.log10` (embedded as `Real.rpow`
  and `Real.logb 10`).
* `Date.UTC` is embedded as proleptic-Gregorian day arithmetic in
  milliseconds (including the ECMAScript two-digit-year rule and month
  rollover); `Math.floor` of an integer quotient is `Int.fdiv`.
* JavaScript's `Array.prototype.sort` is required to be a stable sort by the
  comparator; for the date comparator (a total preorder) the stable sort is
  unique, so it is embedded as `List.insertionSort`, which is stable.
-/

namespace RZ9

/-- A JavaScript number as it occurs in a practice entry's rate field:
either a finite value (idealised as a rational) or one of the
non-finite IEEE values that `scores / reps` can produce. -/
inductive JSNum where
  | nan
  | posInf
  | negInf
  | fin (q : ℚ)
deriving DecidableEq

/-- JavaScript division `a / b` on (idealised) finite numbers: division by
zero yields `NaN` when the dividend is zero and a signed infinity otherwise.
(Source: the unguarded `scores / reps` in `aggregatePlayerStats`.) -/
def jsDiv (a b : ℚ) : JSNum :=
  if b = 0 then
    (if a = 0 then .nan else if 0 < a then .posInf else .negInf)
  else .fin (a / b)

/-- One element of a player's practice history, as pushed by
`aggregatePlayerStats`: `{date: p.date, pct: scores / reps}`. -/
structure Entry where
  date : String
  pct : JSNum
deriving DecidableEq

/-- A team of a practice record: `{team_id, roster}` (the optional display
`name` field is irrelevant to the core). -/
structure Team where
  team_id : String
  roster : List String
deriving DecidableEq

/-- A team result of a practice record: `{team_id, reps, scores}`. -/
structure TeamResult where
  team_id : String
  reps : ℚ
  scores : ℚ
deriving DecidableEq

/-- A practice record.  `teams`/`results` are `Option`s because the source
guards `if (!p.teams || !p.results) continue` (a missing field skips the
whole record); a present field is a (possibly empty) array. -/
structure PracticeRecord where
  date : String
  teams : Option (List Team)
  results : Option (List TeamResult)
deriving DecidableEq

/-- Per-player accumulator of `aggregatePlayerStats`:
`{scored, reps, practices}`. -/
structure Stats where
  scored : ℚ
  reps : ℚ
  practices : List Entry
deriving DecidableEq

/-- The fresh accumulator installed by
`playerMap.set(player, { scored: 0, reps: 0, practices: [] })`. -/
def emptyStats : Stats := ⟨0, 0, []⟩

/-- The JS `Map` `playerName -> Stats`, embedded as an association list in
insertion order (JS `Map` iteration order). -/
abbrev PlayerMap := List (String × Stats)

/-- `Map.prototype.get`. -/
def mapGet (m : PlayerMap) (name : String) : Option Stats :=
  (m.find? (fun kv => kv.1 = name)).map (·.2)

/-- The source's `has`/`set`-default/`get`-mutate sequence on the player map:
update the entry for `name` in place if present, otherwise append a fresh
default entry at the end (JS `Map.set` appends new keys in insertion order). -/
def upsert : PlayerMap → String → (Stats → Stats) → PlayerMap
  | [], n, f => [(n, f emptyStats)]
  | (k, v) :: rest, n, f =>
      if k = n then (k, f v) :: rest else (k, v) :: upsert rest n f

/-- `cur.scored += scores; cur.reps += reps; cur.practices.push(e)`. -/
def addEntry (s : Stats) (scores reps : ℚ) (e : Entry) : Stats :=
  { scored := s.scored + scores, reps := s.reps + reps,
    practices := s.practices ++ [e] }

/-- The `teamRoster` lookup map built by iterating `teamRoster.set(...)` over
`p.teams` and read with `teamRoster.get(r.team_id) || []`: the last team with
a given id wins, and a missing id yields the empty roster. -/
def rosterMapGet (teams : List Team) (tid : String) : List String :=
  teams.foldl (fun acc t => if t.team_id = tid then t.roster else acc) []

/-- Processing of one `TeamResult` inside `aggregatePlayerStats`: resolve the
roster for `r.team_id`, then for each roster occurrence add the result's
`scores`/`reps` to that player's totals and push one history entry whose rate
is the unguarded `scores / reps`. -/
def procResult (m : PlayerMap) (date : String) (teams : List Team)
    (r : TeamResult) : PlayerMap :=
  (rosterMapGet teams r.team_id).foldl
    (fun m pl =>
      upsert m pl (fun s => addEntry s r.scores r.reps ⟨date, jsDiv r.scores r.reps⟩))
    m

/-- Processing of one practice record: records missing `teams` or `results`
are skipped; otherwise the results are folded in array order. -/
def procPractice (m : PlayerMap) (p : PracticeRecord) : PlayerMap :=
  match p.teams, p.results with
  | some ts, some rs => rs.foldl (fun m r => procResult m p.date ts r) m
  | _, _ => m

/-- `aggregatePlayerStats(practices)`: fold every practice into the player
map, starting from the empty map. -/
def aggregatePlayerStats (practices : List PracticeRecord) : PlayerMap :=
  practices.foldl procPractice []

/-! ## Date handling of `computePlayerRating` -/

/-- One day in milliseconds (`MS_DAY`). -/
def MS_DAY : ℤ := 86400000

/-- `String.prototype.split("-")` on the character list of the date string:
splitting on the separator `'-'` (structural recursion so that concrete
dates evaluate). -/
def splitOnDash : List Char → List (List Char)
  | [] => [[]]
  | c :: rest =>
      if c = '-' then [] :: splitOnDash rest
      else
        match splitOnDash rest with
        | [] => [[c]]
        | p :: ps => (c :: p) :: ps

/-- `Number(s)` on one field of a `YYYY-MM-DD` date string: the empty string
is `0`, a digit string is its value, and anything else is `NaN` (`none`).
(Splitting on `"-"` never leaves signs, so signed/decimal/other numeric
forms cannot occur in a field.) -/
def jsNumField (cs : List Char) : Option ℤ :=
  if cs.isEmpty then some 0
  else if cs.all Char.isDigit then
    some (Int.ofNat (cs.foldl (fun n c => n * 10 + (c.toNat - 48)) 0))
  else none

/-- Days since the Unix epoch of a proleptic-Gregorian date with `m ∈ 1..12`
(day rollover is handled by the caller through the `d - 1` offset). -/
def daysFromCivil (y m d : ℤ) : ℤ :=
  let y1 := if m ≤ 2 then y - 1 else y
  let era := Int.fdiv y1 400
  let yoe := y1 - era * 400
  let mp := Int.emod (m + 9) 12
  let doy := Int.fdiv (153 * mp + 2) 5 + (d - 1)
  let doe := yoe * 365 + Int.fdiv yoe 4 - Int.fdiv yoe 100 + doy
  era * 146097 + doe - 719468

/-- `Date.UTC(y, m0, d)` in milliseconds: two-digit years map to 1900–1999,
and out-of-range month indices / days roll over. -/
def dateUTC (y m0 d : ℤ) : ℤ :=
  let yy := if 0 ≤ y ∧ y ≤ 99 then y + 1900 else y
  let ya := yy + Int.fdiv m0 12
  let mi := Int.emod m0 12
  (daysFromCivil ya (mi + 1) d) * 86400000

/-- The source's `toUTC`: split the date string on `"-"`, `Number` each
field, fail (`NaN`, i.e. `none`) unless the year is finite, and default a
missing/`NaN`/zero month or day to 1 (`(m || 1)`, `d || 1`). -/
def toUTC (ymd : String) : Option ℤ :=
  let parts := (splitOnDash ymd.toList).map jsNumField
  match parts.headD none with
  | none => none
  | some y =>
      let m := match (parts.drop 1).headD none with
        | some mv => if mv = 0 then 1 else mv
        | none => 1
      let d := match (parts.drop 2).headD none with
        | some dv => if dv = 0 then 1 else dv
        | none => 1
      some (dateUTC y (m - 1) d)

/-- `Math.max(0, Math.floor((todayUTC - when) / MS_DAY))`. -/
def ageDays (today whenUTC : ℤ) : ℤ :=
  max 0 (Int.fdiv (today - whenUTC) MS_DAY)

/-- `Math.min(1, Math.max(0, Number(e.pct)))` followed by the
`Number.isFinite` check: `NaN` propagates through min/max and is then
skipped (`none`), while `+Infinity` clamps to `1` and `-Infinity` to `0`
*before* the finiteness check, so they are processed, not skipped. -/
def clampRate : JSNum → Option ℚ
  | .nan => none
  | .posInf => some 1
  | .negInf => some 0
  | .fin q => some (min 1 (max 0 q))

/-- The ascending date order used by
`sort((a, b) => (a.date || "").localeCompare(b.date || ""))`. -/
def entryLe (a b : Entry) : Prop := a.date ≤ b.date

instance : DecidableRel entryLe := fun a b =>
  inferInstanceAs (Decidable (a.date ≤ b.date))

instance : IsTotal Entry entryLe := ⟨fun a b => le_total a.date b.date⟩

instance : IsTrans Entry entryLe := ⟨fun _ _ _ h h' => le_trans h h'⟩

/-- The strict date order, used to show that sorted lists with pairwise
distinct dates are unique. -/
def entryLt (a b : Entry) : Prop := a.date < b.date

instance : IsAntisymm Entry entryLt :=
  ⟨fun _ _ h h' => absurd h' (lt_asymm h)⟩

/-- The pre-sort of `computePlayerRating`: a stable sort ascending by date
string (`insertionSort` is stable, and a stable sort by a total preorder is
unique, so this is extensionally the JS sort). The source's
`.filter(Boolean)` is the identity on well-typed (non-null) entries. -/
def sortEntries (l : List Entry) : List Entry :=
  l.insertionSort entryLe

/-! ## The rating engine -/

/-- The parameter object of `computePlayerRating`, with the source's default
values.  `today` is `TODAY = new Date()` in the source — an environmental
wall-clock input with no meaningful mathematical default — embedded as the
(already UTC-floored, `floorUTC`) millisecond timestamp. -/
structure RatingParams where
  initial : ℝ := 1000
  K : ℝ := 200
  halfLifeDays : ℝ := 21
  mu : ℝ := 1000
  width : ℝ := 10000
  today : ℤ := 0
  neutral : ℝ := 0.555

/-- `expectedPct(R, {mu, width, neutral})`: clamp `neutral` into
`[1e-6, 1-1e-6]`, form the bias `log10(nz / (1 - nz))` and return the
logistic `1 / (1 + 10 ^ (-((R - mu)/width + bias)))`. -/
noncomputable def expectedPct (R mu width neutral : ℝ) : ℝ :=
  let nz := min 0.999999 (max 0.000001 neutral)
  let bias := Real.logb 10 (nz / (1 - nz))
  let expo := -((R - mu) / width + bias)
  1 / (1 + (10 : ℝ) ^ expo)

/-- `halfLifeDays > 0 ? Math.pow(0.5, ageDays / halfLifeDays) : 1`. -/
noncomputable def decayWeight (halfLifeDays : ℝ) (age : ℤ) : ℝ :=
  if 0 < halfLifeDays then (0.5 : ℝ) ^ ((age : ℝ) / halfLifeDays) else 1

/-- One iteration of the loop of `computePlayerRating`: clamp the rate and
skip the entry if it is non-finite after clamping (i.e. was `NaN`), skip it
if its date fails to parse, and otherwise apply the decayed logistic
update `R + K * decay * (r - expected)`. -/
noncomputable def ratingStep (P : RatingParams) (R : ℝ) (e : Entry) : ℝ :=
  match clampRate e.pct with
  | none => R
  | some r =>
      match toUTC e.date with
      | none => R
      | some w =>
          R + P.K * decayWeight P.halfLifeDays (ageDays P.today w)
            * ((r : ℝ) - expectedPct R P.mu P.width P.neutral)

/-- `computePlayerRating(entries, P)`: stable-sort the entries ascending by
date and fold the update over them starting from `P.initial`. -/
noncomputable def computePlayerRating (entries : List Entry) (P : RatingParams) : ℝ :=
  (sortEntries entries).foldl (ratingStep P) P.initial

/-! ## The leaderboard builder -/

/-- One leaderboard row `{player, scored, reps, pct, rating}`. -/
structure Row where
  player : String
  scored : ℚ
  reps : ℚ
  pct : ℚ
  rating : ℝ

/-- `String.prototype.localeCompare` on player names (ASCII names, so
lexicographic code-point order). -/
def strCmp (a b : String) : ℤ :=
  if a < b then -1 else if b < a then 1 else 0

/-- The comparator of `toLeaderboard`, exactly as written in the source —
including the `a.reps - a.reps` on the reps tie-break line:

```js
if (b.rating !== a.rating) return b.rating - a.rating;
if (b.pct !== a.pct) return b.pct - a.pct;
if (b.reps !== a.reps) return a.reps - a.reps;
return a.player.localeCompare(b.player);
```
-/
noncomputable def rowCmp (a b : Row) : ℝ :=
  if b.rating ≠ a.rating then b.rating - a.rating
  else if b.pct ≠ a.pct then ((b.pct : ℝ) - (a.pct : ℝ))
  else if b.reps ≠ a.reps then ((a.reps : ℝ) - (a.reps : ℝ))
  else (strCmp a.player b.player : ℝ)

/-- "`a` need not be placed after `b`" for the JS sort: the comparator is
non-positive. -/
def rowLe (a b : Row) : Prop := rowCmp a b ≤ 0

noncomputable instance : DecidableRel rowLe := fun _ _ => Classical.propDecidable _

/-- `toLeaderboard(playerMap)`: build one row per player (with the guarded
`pct = reps > 0 ? scored / reps : 0`) and sort by `rowCmp`.  The source calls
`computePlayerRating(practices)` with default parameters, whose reference
date is the module-level wall clock `TODAY`; that environmental input is the
explicit `today` argument here.  The JS sort is embedded as a stable
insertion sort consistent with the comparator. -/
noncomputable def toLeaderboard (today : ℤ) (m : PlayerMap) : List Row :=
  let rows := m.map (fun kv =>
    { player := kv.1, scored := kv.2.scored, reps := kv.2.reps,
      pct := if 0 < kv.2.reps then kv.2.scored / kv.2.reps else 0,
      rating := computePlayerRating kv.2.practices { today := today } })
  rows.insertionSort rowLe

/-! ## The practice-details view (`buildRows` in `PracticeDetails.js`) -/

/-- One row of the per-practice drill-down table (display fields other than
the team id, roster and numbers are omitted). -/
structure TeamRow where
  teamId : String
  roster : List String
  reps : ℚ
  scores : ℚ
  pct : ℚ
deriving DecidableEq

/-- The `resultByTeam` map of `buildRows`: built by iterating `set` over the
results (last result with a given id wins), read with `get`. -/
def resultMapGet (results : List TeamResult) (tid : String) : Option (ℚ × ℚ) :=
  results.foldl (fun acc r => if r.team_id = tid then some (r.reps, r.scores) else acc)
    none

/-- `buildRows(practice)`: one row per team, defaulting a team with no
matching result to `{reps: 0, scores: 0}` (and hence `pct = 0` through the
`reps > 0` guard), sorted by team id ascending. -/
def buildRows (p : PracticeRecord) : List TeamRow :=
  let teams := p.teams.getD []
  let results := p.results.getD []
  let rows := teams.map (fun t =>
    let res := (resultMapGet results t.team_id).getD (0, 0)
    { teamId := t.team_id, roster := t.roster, reps := res.1, scores := res.2,
      pct := if 0 < res.1 then res.2 / res.1 else 0 })
  rows.insertionSort (fun a b => a.teamId ≤ b.teamId)

/-! ## Concrete inputs used in refutations and witnesses -/

/-- The combined per-player effect of `k` occurrences in one processed
roster: totals grow by `k` times the result's numbers and `k` identical
history entries are appended. -/
def bumpK (s : Stats) (scores reps : ℚ) (e : Entry) (k : ℕ) : Stats :=
  { scored := s.scored + k * scores, reps := s.reps + k * reps,
    practices := s.practices ++ List.replicate k e }

/-- A sample practice date. -/
def exDate : String := "2025-09-03"

/-- Its `toUTC` timestamp. -/
def utcEx : ℤ := (toUTC exDate).getD 0

/-- The `toUTC` timestamp of a date two days earlier. -/
def utcOld : ℤ := (toUTC "2025-09-01").getD 0

/-- Default rating parameters with the reference date set to `exDate`
(so an entry dated `exDate` has age 0). -/
noncomputable def exParams : RatingParams :=
  ⟨1000, 200, 21, 1000, 10000, utcEx, 0.555⟩

/-- An entry on `exDate` with rate 0. -/
def entryLo : Entry := ⟨exDate, .fin 0⟩

/-- An entry on `exDate` with rate 1. -/
def entryHi : Entry := ⟨exDate, .fin 1⟩

/-- An entry on `exDate` with rate `+Infinity`. -/
def entryInf : Entry := ⟨exDate, .posInf⟩

/-- An entry with rate 1 dated `exDate` (age 0 under `exParams`). -/
def entryNew : Entry := ⟨"2025-09-03", .fin 1⟩

/-- The same entry dated two days earlier (age 2 under `exParams`). -/
def entryOld : Entry := ⟨"2025-09-01", .fin 1⟩

/-- A leaderboard row: rating 1000, pct 1/2, 10 reps. -/
noncomputable def rowA : Row := ⟨"Alice", 5, 10, 1/2, 1000⟩

/-- A row tied with `rowA` on rating and pct but with different reps and
name. -/
noncomputable def rowB : Row := ⟨"Bob", 10, 20, 1/2, 1000⟩

/-- A practice whose only team has a matching result with `reps = 0`,
`scores = 0`. -/
def practiceZeroReps : PracticeRecord :=
  ⟨"2025-09-03", some [⟨"A", ["X"]⟩], some [⟨"A", 0, 0⟩]⟩

/-- A practice whose only team has no matching result. -/
def practiceNoResult : PracticeRecord :=
  ⟨"2025-09-03", some [⟨"A", ["X"]⟩], some []⟩

/-! ## Lemmas about the player map -/

theorem mapGet_upsert_self (n : String) (f : Stats → Stats) (m : PlayerMap) :
    mapGet (upsert m n f) n = some (f ((mapGet m n).getD emptyStats)) := by
  induction m with
  | nil => simp [upsert, mapGet, List.find?]
  | cons kv rest ih =>
      obtain ⟨k, v⟩ := kv
      by_cases h : k = n
      · subst h
        simp [upsert, mapGet, List.find?]
      · simpa [upsert, mapGet, List.find?, h] using ih

theorem mapGet_upsert_of_ne (n x : String) (f : Stats → Stats) (m : PlayerMap)
    (h : x ≠ n) : mapGet (upsert m n f) x = mapGet m x := by
  have h' : ¬ (n = x) := fun hh => h hh.symm
  induction m with
  | nil => simp [upsert, mapGet, List.find?, h']
  | cons kv rest ih =>
      obtain ⟨k, v⟩ := kv
      by_cases hk : k = n
      · subst hk
        simp [upsert, mapGet, List.find?, h']
      · by_cases hx : k = x
        · subst hx
          simp [upsert, mapGet, List.find?, hk]
        · simpa [upsert, mapGet, List.find?, hk, hx] using ih

theorem mapGet_rosterFold_not_mem (scores reps : ℚ) (e : Entry) (x : String) :
    ∀ (roster : List String) (m : PlayerMap), x ∉ roster →
      mapGet (roster.foldl
        (fun m pl => upsert m pl (fun s => addEntry s scores reps e)) m) x = mapGet m x := by
  intro roster
  induction roster with
  | nil => intro m _; rfl
  | cons p rest ih =>
      intro m hx
      have hxp : x ≠ p := fun hh => hx (by simp [hh])
      have hxrest : x ∉ rest := fun hh => hx (by simp [hh])
      simp only [List.foldl_cons]
      rw [ih _ hxrest, mapGet_upsert_of_ne p x _ m hxp]

theorem bumpK_zero (s : Stats) (scores reps : ℚ) (e : Entry) :
    bumpK s scores reps e 0 = s := by
  simp [bumpK]

theorem bumpK_one (s : Stats) (scores reps : ℚ) (e : Entry) :
    bumpK s scores reps e 1 = addEntry s scores reps e := by
  simp [bumpK, addEntry]

theorem bumpK_addEntry (s : Stats) (scores reps : ℚ) (e : Entry) (k : ℕ) :
    bumpK (addEntry s scores reps e) scores reps e k = bumpK s scores reps e (k + 1) := by
  simp only [bumpK, addEntry, Stats.mk.injEq]
  refine ⟨by push_cast; ring, by push_cast; ring, ?_⟩
  simp [List.replicate_succ, List.append_assoc]

theorem mapGet_rosterFold_count (scores reps : ℚ) (e : Entry) (x : String) :
    ∀ (roster : List String) (m : PlayerMap), 0 < roster.count x →
      mapGet (roster.foldl
        (fun m pl => upsert m pl (fun s => addEntry s scores reps e)) m) x =
        some (bumpK ((mapGet m x).getD emptyStats) scores reps e (roster.count x)) := by
  intro roster
  induction roster with
  | nil => intro m h; simp at h
  | cons p rest ih =>
      intro m hpos
      by_cases hpx : p = x
      · subst hpx
        rw [List.count_cons_self]
        simp only [List.foldl_cons]
        by_cases hrest : 0 < rest.count p
        · rw [ih _ hrest, mapGet_upsert_self]
          simp only [Option.getD_some]
          rw [bumpK_addEntry]
        · have h0 : rest.count p = 0 := Nat.eq_zero_of_not_pos hrest
          have hnot : p ∉ rest := List.count_eq_zero.mp h0
          rw [mapGet_rosterFold_not_mem scores reps e p rest _ hnot, mapGet_upsert_self, h0]
          rw [bumpK_one]
      · have hxp : x ≠ p := fun hh => hpx hh.symm
        rw [List.count_cons_of_ne hxp] at hpos ⊢
        simp only [List.foldl_cons]
        rw [ih _ hpos, mapGet_upsert_of_ne p x _ m hxp]

theorem mapGet_resultsFold_not_mem (d : String) (ts : List Team) (x : String) :
    ∀ (rs : List TeamResult) (m : PlayerMap),
      (∀ r ∈ rs, x ∉ rosterMapGet ts r.team_id) →
      mapGet (rs.foldl (fun m r => procResult m d ts r) m) x = mapGet m x := by
  intro rs
  induction rs with
  | nil => intro m _; rfl
  | cons r rest ih =>
      intro m h
      simp only [List.foldl_cons]
      rw [ih _ (fun r' hr' => h r' (List.mem_cons_of_mem r hr'))]
      simp only [procResult]
      exact mapGet_rosterFold_not_mem _ _ _ x _ m (h r (List.mem_cons_self r rest))

theorem resultMapGet_acc (tid : String) :
    ∀ (rs : List TeamResult) (acc : Option (ℚ × ℚ)), (∀ r ∈ rs, r.team_id ≠ tid) →
      rs.foldl (fun acc r => if r.team_id = tid then some (r.reps, r.scores) else acc) acc
        = acc := by
  intro rs
  induction rs with
  | nil => intro acc _; rfl
  | cons r rest ih =>
      intro acc h
      simp only [List.foldl_cons, if_neg (h r (List.mem_cons_self r rest))]
      exact ih _ (fun r' h' => h r' (List.mem_cons_of_mem r h'))

theorem resultMapGet_eq_none (tid : String) (rs : List TeamResult)
    (h : ∀ r ∈ rs, r.team_id ≠ tid) : resultMapGet rs tid = none :=
  resultMapGet_acc tid rs none h

/-! ## Claim theorems: aggregation stage -/

/-- C10: rosters are processed as sequences, not sets — a player occurring
`k` times in the roster of a team matched by a result has that result's
`scores`/`reps` added `k` times to their totals and `k` identical history
entries appended, both at the `procResult` level (for an arbitrary prior map)
and through `aggregatePlayerStats` on a single practice. -/
theorem roster_duplicates_counted (m : PlayerMap) (date : String) (ts : List Team)
    (r : TeamResult) (x : String)
    (hk : 0 < (rosterMapGet ts r.team_id).count x) :
    mapGet (procResult m date ts r) x =
      some (bumpK ((mapGet m x).getD emptyStats) r.scores r.reps
        ⟨date, jsDiv r.scores r.reps⟩ ((rosterMapGet ts r.team_id).count x)) ∧
    mapGet (aggregatePlayerStats [⟨date, some ts, some [r]⟩]) x =
      some (bumpK emptyStats r.scores r.reps
        ⟨date, jsDiv r.scores r.reps⟩ ((rosterMapGet ts r.team_id).count x)) :=
  ⟨mapGet_rosterFold_count _ _ _ _ _ m hk,
   mapGet_rosterFold_count _ _ _ _ _ [] hk⟩

/-- Witness for C10 at a concrete input: the name `"X"` occurs twice in the
roster, so totals double and two identical entries are appended. -/
theorem roster_duplicates_counted_witness :
    mapGet (procResult [] "2025-09-03" [⟨"A", ["X", "X"]⟩] ⟨"A", 10, 4⟩) "X" =
      some (bumpK emptyStats 4 10 ⟨"2025-09-03", jsDiv 4 10⟩ 2) ∧
    mapGet (aggregatePlayerStats
        [⟨"2025-09-03", some [⟨"A", ["X", "X"]⟩], some [⟨"A", 10, 4⟩]⟩]) "X" =
      some (bumpK emptyStats 4 10 ⟨"2025-09-03", jsDiv 4 10⟩ 2) :=
  roster_duplicates_counted [] "2025-09-03" [⟨"A", ["X", "X"]⟩] ⟨"A", 10, 4⟩ "X"
    (by decide)

/-- C4 counterexample: in the practice whose matched result has
`reps = 0, scores = 0`, the single history entry appended for `"X"` has rate
`NaN` (the unguarded `0 / 0`), not `0` as claimed. -/
theorem zero_reps_rate_is_nan :
    mapGet (aggregatePlayerStats [practiceZeroReps]) "X" =
      some ⟨0, 0, [⟨"2025-09-03", JSNum.nan⟩]⟩ ∧
    JSNum.nan ≠ JSNum.fin 0 := by
  constructor
  · simp [aggregatePlayerStats, procPractice, procResult, practiceZeroReps,
      rosterMapGet, upsert, mapGet, addEntry, jsDiv, emptyStats, List.find?]
  · decide

/-- C4 amended: for a player occurring exactly once in the roster of a team
matched by the (single) result of a practice, exactly one history entry is
appended, and its rate is the JS quotient `scores / reps`: the finite
quotient when `reps ≠ 0`, and `NaN` (resp. `+Infinity`) when `reps = 0` and
`scores = 0` (resp. `scores > 0`) — not `0`. -/
theorem aggregate_appends_one_entry (m : PlayerMap) (date : String) (ts : List Team)
    (r : TeamResult) (x : String)
    (h1 : (rosterMapGet ts r.team_id).count x = 1) :
    mapGet (procPractice m ⟨date, some ts, some [r]⟩) x =
      some (addEntry ((mapGet m x).getD emptyStats) r.scores r.reps
        ⟨date, jsDiv r.scores r.reps⟩) ∧
    (r.reps ≠ 0 → jsDiv r.scores r.reps = JSNum.fin (r.scores / r.reps)) ∧
    (r.reps = 0 → r.scores = 0 → jsDiv r.scores r.reps = JSNum.nan) ∧
    (r.reps = 0 → 0 < r.scores → jsDiv r.scores r.reps = JSNum.posInf) := by
  refine ⟨?_, ?_, ?_, ?_⟩
  · have h := mapGet_rosterFold_count r.scores r.reps ⟨date, jsDiv r.scores r.reps⟩ x
      (rosterMapGet ts r.team_id) m (by omega)
    rw [h1, bumpK_one] at h
    exact h
  · intro h
    simp [jsDiv, h]
  · intro h hs
    simp [jsDiv, h, hs]
  · intro h hs
    simp [jsDiv, h, hs.ne', hs]

/-- Witness for C4 at the zero-reps practice: one entry is appended for
`"X"` and its rate is the JS quotient `0 / 0`. -/
theorem aggregate_appends_one_entry_witness :
    mapGet (procPractice [] ⟨"2025-09-03", some [⟨"A", ["X"]⟩], some [⟨"A", 0, 0⟩]⟩) "X" =
      some (addEntry emptyStats 0 0 ⟨"2025-09-03", jsDiv 0 0⟩) ∧
    ((0 : ℚ) ≠ 0 → jsDiv 0 0 = JSNum.fin (0 / 0)) ∧
    ((0 : ℚ) = 0 → (0 : ℚ) = 0 → jsDiv 0 0 = JSNum.nan) ∧
    ((0 : ℚ) = 0 → (0 : ℚ) < 0 → jsDiv 0 0 = JSNum.posInf) :=
  aggregate_appends_one_entry [] "2025-09-03" [⟨"A", ["X"]⟩] ⟨"A", 0, 0⟩ "X" (by decide)

/-- C5 counterexample: in the practice whose only team (rostering `"X"`)
matches no result, aggregation produces an empty player map — `"X"` receives
no history entries at all, rather than entries with `reps = 0, scores = 0,
rate 0`. -/
theorem team_without_result_contributes_nothing :
    aggregatePlayerStats [practiceNoResult] = [] ∧
    mapGet (aggregatePlayerStats [practiceNoResult]) "X" = none := by
  constructor
  · decide
  · decide

/-- C5 amended: in the aggregation stage a team with no matching result
contributes nothing at all (a player rostered only on unmatched teams keeps
exactly the stats they had before, so in particular receives no entry); in
the practice-details view (`buildRows`) such a team is displayed with
`reps = 0`, `scores = 0` and rate `0` (not `NaN`); and a result whose
`team_id` matches no team contributes zero player attributions. -/
theorem unmatched_team_and_result_behavior :
    (∀ (m : PlayerMap) (p : PracticeRecord) (ts : List Team) (rs : List TeamResult)
      (x : String), p.teams = some ts → p.results = some rs →
      (∀ r ∈ rs, x ∉ rosterMapGet ts r.team_id) →
      mapGet (procPractice m p) x = mapGet m x) ∧
    (∀ (p : PracticeRecord) (t : Team), t ∈ p.teams.getD [] →
      (∀ r ∈ p.results.getD [], r.team_id ≠ t.team_id) →
      ∃ row ∈ buildRows p, row.teamId = t.team_id ∧ row.roster = t.roster ∧
        row.reps = 0 ∧ row.scores = 0 ∧ row.pct = 0) ∧
    (∀ (m : PlayerMap) (date : String) (ts : List Team) (r : TeamResult),
      rosterMapGet ts r.team_id = [] → procResult m date ts r = m) := by
  refine ⟨?_, ?_, ?_⟩
  · intro m p ts rs x hts hrs hnot
    obtain ⟨d, pts, prs⟩ := p
    simp only at hts hrs
    subst hts; subst hrs
    exact mapGet_resultsFold_not_mem d ts x rs m hnot
  · intro p t ht hnone
    have hres : resultMapGet (p.results.getD []) t.team_id = none :=
      resultMapGet_eq_none _ _ hnone
    refine ⟨⟨t.team_id, t.roster, 0, 0, 0⟩, ?_, rfl, rfl, rfl, rfl, rfl⟩
    unfold buildRows
    rw [List.mem_insertionSort]
    refine List.mem_map.mpr ⟨t, ht, ?_⟩
    simp [hres]
  · intro m date ts r h
    unfold procResult
    rw [h]
    rfl

/-- Witness for C5 at concrete inputs: the practice with a result-less team
leaves the map untouched for `"X"`; its `buildRows` row shows zeros; and a
result with an unknown `team_id` attributes nothing. -/
theorem unmatched_team_and_result_behavior_witness :
    mapGet (procPractice [] practiceNoResult) "X" = mapGet [] "X" ∧
    (∃ row ∈ buildRows practiceNoResult, row.teamId = "A" ∧ row.roster = ["X"] ∧
      row.reps = 0 ∧ row.scores = 0 ∧ row.pct = 0) ∧
    procResult [] "2025-09-03" [⟨"A", ["X"]⟩] ⟨"B", 3, 1⟩ = [] := by
  refine ⟨unmatched_team_and_result_behavior.1 [] practiceNoResult [⟨"A", ["X"]⟩] []
      "X" rfl rfl (by simp), ?_,
    unmatched_team_and_result_behavior.2.2 [] "2025-09-03" [⟨"A", ["X"]⟩]
      ⟨"B", 3, 1⟩ (by decide)⟩
  exact unmatched_team_and_result_behavior.2.1 practiceNoResult ⟨"A", ["X"]⟩
    (by decide) (by simp [practiceNoResult])

/-! ## Claim theorems: leaderboard builder and safety -/

/-- C8: `computePlayerRating` on an empty history returns exactly the
`initial` parameter, which defaults to 1000. -/
theorem computePlayerRating_nil :
    (∀ P : RatingParams, computePlayerRating [] P = P.initial) ∧
    (∀ t : ℤ, computePlayerRating [] { today := t } = 1000) :=
  ⟨fun _ => rfl, fun _ => rfl⟩

/-- C2, the comparator at a failing input: for two distinct rows that tie on
rating and pct but differ in reps (10 vs 20) and in name, the comparator
returns 0 in both orders — the `a.reps - a.reps` tie-break line is always 0,
so rows differing in reps are treated as equal, their relative order is
whatever the insertion order was, and the player-name tie-break is never
reached.  (The claimed reps-then-name total order is therefore not what the
code computes.) -/
theorem reps_tiebreak_returns_zero :
    rowCmp rowA rowB = 0 ∧ rowCmp rowB rowA = 0 ∧
    rowA.reps ≠ rowB.reps ∧ rowA.player ≠ rowB.player := by
  refine ⟨?_, ?_, by norm_num [rowA, rowB], by simp [rowA, rowB]⟩
  · norm_num [rowCmp, rowA, rowB]
  · norm_num [rowCmp, rowA, rowB]

/-- C9: the embedded core is total by construction (every function above is
a Lean `def`); moreover the age of an entry is clamped to be non-negative
(even for future-dated entries), the division in a leaderboard row's `pct`
is guarded (`pct = 0` whenever the accumulated reps are not positive), and a
practice record missing `teams` or `results` degrades to a no-op instead of
failing. -/
theorem core_safety :
    (∀ today whenUTC : ℤ, 0 ≤ ageDays today whenUTC) ∧
    (∀ (today : ℤ) (m : PlayerMap) (row : Row), row ∈ toLeaderboard today m →
      ¬ 0 < row.reps → row.pct = 0) ∧
    (∀ (m : PlayerMap) (p : PracticeRecord), p.teams = none ∨ p.results = none →
      procPractice m p = m) := by
  refine ⟨fun t w => le_max_left 0 _, ?_, ?_⟩
  · intro today m row hmem hreps
    unfold toLeaderboard at hmem
    rw [List.mem_insertionSort] at hmem
    obtain ⟨kv, hkv, hrow⟩ := List.mem_map.mp hmem
    cases hrow
    exact if_neg hreps
  · intro m p h
    unfold procPractice
    rcases h with h | h
    · rw [h]
    · rw [h]
      rcases p.teams with _ | ts <;> rfl

/-- Witness for C9 at concrete inputs: a future-dated entry still has a
non-negative age, the single row of a one-player map with zero reps has
`pct = 0`, and a record with missing `teams` is skipped. -/
theorem core_safety_witness :
    0 ≤ ageDays 3 86400000 ∧
    (Row.mk "X" 0 0 (if (0 : ℚ) < 0 then (0 : ℚ) / 0 else 0)
      (computePlayerRating [] { today := 0 })).pct = 0 ∧
    procPractice [] ⟨"2025-09-03", none, some []⟩ = [] := by
  refine ⟨core_safety.1 3 86400000, ?_,
    core_safety.2.2 [] ⟨"2025-09-03", none, some []⟩ (Or.inl rfl)⟩
  refine core_safety.2.1 0 [("X", emptyStats)] _ ?_ (by norm_num)
  unfold toLeaderboard
  rw [List.mem_insertionSort]
  simp [emptyStats]

/-! ## Lemmas about the rating engine -/

theorem ratingStep_eq (P : RatingParams) (R : ℝ) (e : Entry) (r : ℚ) (w : ℤ)
    (hc : clampRate e.pct = some r) (hw : toUTC e.date = some w) :
    ratingStep P R e = R + P.K * decayWeight P.halfLifeDays (ageDays P.today w)
      * ((r : ℝ) - expectedPct R P.mu P.width P.neutral) := by
  unfold ratingStep
  rw [hc, hw]

theorem ratingStep_skip_nan (P : RatingParams) (R : ℝ) (e : Entry)
    (hc : clampRate e.pct = none) : ratingStep P R e = R := by
  unfold ratingStep
  rw [hc]

theorem ratingStep_skip_noparse (P : RatingParams) (R : ℝ) (e : Entry)
    (hw : toUTC e.date = none) : ratingStep P R e = R := by
  unfold ratingStep
  cases hc : clampRate e.pct with
  | none => rfl
  | some r => rw [hw]

theorem one_add_rpow_pos (e : ℝ) : (0 : ℝ) < 1 + (10 : ℝ) ^ e := by
  have := Real.rpow_pos_of_pos (show (0 : ℝ) < 10 by norm_num) e
  linarith

/-- The calibration property of the bias term: at `R = mu` the expected rate
is exactly the (clamped) neutral rate, so for `ν` within the clamp bounds it
is exactly `ν`. -/
theorem expectedPct_mu (mu width ν : ℝ) (hlo : (0.000001 : ℝ) ≤ ν)
    (hhi : ν ≤ 0.999999) : expectedPct mu mu width ν = ν := by
  simp only [expectedPct]
  rw [max_eq_right hlo, min_eq_right hhi]
  have hν0 : (0 : ℝ) < ν := lt_of_lt_of_le (by norm_num) hlo
  have hν1 : ν < 1 := lt_of_le_of_lt hhi (by norm_num)
  have h1ν : (0 : ℝ) < 1 - ν := by linarith
  have hq : (0 : ℝ) < ν / (1 - ν) := div_pos hν0 h1ν
  rw [sub_self, zero_div, zero_add,
    Real.rpow_neg (by norm_num : (0 : ℝ) ≤ 10),
    Real.rpow_logb (by norm_num) (by norm_num) hq, inv_div]
  rw [show (1 : ℝ) + (1 - ν) / ν = 1 / ν by field_simp, one_div_one_div]

/-- `expectedPct` is strictly increasing in the rating when `width > 0`. -/
theorem expectedPct_strictMono (mu width ν : ℝ) (hw : 0 < width) {R1 R2 : ℝ}
    (h : R1 < R2) : expectedPct R1 mu width ν < expectedPct R2 mu width ν := by
  simp only [expectedPct]
  set nz := min (0.999999 : ℝ) (max 0.000001 ν) with hnz
  set b := Real.logb 10 (nz / (1 - nz)) with hb
  have hdiv : (R1 - mu) / width < (R2 - mu) / width := by
    gcongr
  have hexp : (10 : ℝ) ^ (-((R2 - mu) / width + b)) <
      (10 : ℝ) ^ (-((R1 - mu) / width + b)) := by
    apply Real.rpow_lt_rpow_of_exponent_lt (by norm_num : (1 : ℝ) < 10)
    linarith
  have h2 : (0 : ℝ) < 1 + (10 : ℝ) ^ (-((R2 - mu) / width + b)) := one_add_rpow_pos _
  exact one_div_lt_one_div_of_lt h2 (by linarith)

theorem decayWeight_pos (H : ℝ) (a : ℤ) : 0 < decayWeight H a := by
  unfold decayWeight
  split
  · exact Real.rpow_pos_of_pos (by norm_num) _
  · norm_num

theorem decayWeight_age_zero (H : ℝ) (h : 0 < H) : decayWeight H 0 = 1 := by
  unfold decayWeight
  rw [if_pos h, Int.cast_zero, zero_div, Real.rpow_zero]

/-- The decay weight `0.5 ^ (age / H)` is strictly decreasing in the age
when the half-life is positive. -/
theorem decayWeight_strictAnti (H : ℝ) (h : 0 < H) {a1 a2 : ℤ} (ha : a1 < a2) :
    decayWeight H a2 < decayWeight H a1 := by
  unfold decayWeight
  rw [if_pos h, if_pos h]
  apply Real.rpow_lt_rpow_of_exponent_gt (by norm_num) (by norm_num)
  gcongr


/-! ## Claim theorems: rating engine -/

/-- C3: if every entry's rate equals the neutral parameter exactly and
`initial = mu` (as under the defaults `initial = mu = 1000`,
`neutral = 0.555`), the rating stays at `mu` for any number of entries: the
bias term makes the expected rate at rating `mu` equal to `neutral`, so
every update is by exactly zero (entries whose dates fail to parse are
skipped and also leave `mu` unchanged).  The bounds on `neutral` are the
clamp bounds of the source, within which the calibration is exact; the
defaults satisfy them. -/
theorem rating_fixed_at_mu (entries : List Entry) (P : RatingParams) (nq : ℚ)
    (hinit : P.initial = P.mu) (hnu : P.neutral = (nq : ℝ))
    (hlo : (0.000001 : ℝ) ≤ P.neutral) (hhi : P.neutral ≤ 0.999999)
    (hrate : ∀ e ∈ entries, e.pct = JSNum.fin nq) :
    computePlayerRating entries P = P.mu := by
  have h0 : (0 : ℚ) ≤ nq := by
    have h : (0 : ℝ) ≤ (nq : ℝ) := by
      rw [← hnu]
      linarith [hlo]
    exact_mod_cast h
  have h1 : nq ≤ 1 := by
    have h : (nq : ℝ) ≤ 1 := by
      rw [← hnu]
      linarith [hhi]
    exact_mod_cast h
  have hclamp : clampRate (JSNum.fin nq) = some nq := by
    simp [clampRate, max_eq_right h0, min_eq_right h1]
  have hstep : ∀ e : Entry, e.pct = JSNum.fin nq → ratingStep P P.mu e = P.mu := by
    intro e he
    have hc : clampRate e.pct = some nq := by
      rw [he]
      exact hclamp
    cases hw : toUTC e.date with
    | none => exact ratingStep_skip_noparse P P.mu e hw
    | some w =>
        rw [ratingStep_eq P P.mu e nq w hc hw,
          expectedPct_mu P.mu P.width P.neutral hlo hhi, hnu]
        ring
  have key : ∀ l : List Entry, (∀ e ∈ l, e.pct = JSNum.fin nq) →
      l.foldl (ratingStep P) P.mu = P.mu := by
    intro l
    induction l with
    | nil => intro _; rfl
    | cons e t ih =>
        intro h
        simp only [List.foldl_cons]
        rw [hstep e (h e (List.mem_cons_self e t))]
        exact ih (fun x hx => h x (List.mem_cons_of_mem e hx))
  unfold computePlayerRating
  rw [hinit]
  refine key (sortEntries entries) (fun e he => hrate e ?_)
  simpa only [sortEntries, List.mem_insertionSort] using he

/-- Witness for C3: two entries whose rate is exactly the default neutral
rate 0.555 = 111/200 leave the default-parameter rating at 1000. -/
theorem rating_fixed_at_mu_witness :
    computePlayerRating
      [⟨"2025-09-03", JSNum.fin (111 / 200)⟩, ⟨"2025-09-01", JSNum.fin (111 / 200)⟩]
      { today := 0 } = 1000 :=
  rating_fixed_at_mu
    [⟨"2025-09-03", JSNum.fin (111 / 200)⟩, ⟨"2025-09-01", JSNum.fin (111 / 200)⟩]
    { today := 0 } (111 / 200) rfl
    (by show (0.555 : ℝ) = ((111 / 200 : ℚ) : ℝ); push_cast; norm_num)
    (by show (0.000001 : ℝ) ≤ 0.555; norm_num)
    (by show (0.555 : ℝ) ≤ 0.999999; norm_num)
    (by simp)

/-- C6 counterexample: an entry whose rate is `+Infinity` is *not* skipped.
The source clamps with `Math.min(1, Math.max(0, r))` *before* the
`Number.isFinite` check, so `+Infinity` becomes the finite rate 1 and the
entry is processed: with default parameters and reference date equal to the
entry date the rating moves from 1000 to `1000 + 200·(1 − 0.555) = 1089`,
while the claim (skip all non-finite rates) would leave it at
`initial = 1000`. -/
theorem infinite_rate_not_skipped :
    computePlayerRating [entryInf] exParams = 1089 ∧ exParams.initial = 1000 := by
  constructor
  · have hc : clampRate entryInf.pct = some 1 := by decide
    have hw : toUTC entryInf.date = some utcEx := by decide
    have hsort : sortEntries [entryInf] = [entryInf] := rfl
    unfold computePlayerRating
    rw [hsort]
    simp only [List.foldl_cons, List.foldl_nil]
    rw [ratingStep_eq exParams exParams.initial entryInf 1 utcEx hc hw]
    have hage : ageDays exParams.today utcEx = 0 := by decide
    rw [hage, decayWeight_age_zero exParams.halfLifeDays
      (by show (0 : ℝ) < 21; norm_num)]
    have hmu : expectedPct exParams.initial exParams.mu exParams.width
        exParams.neutral = 0.555 := by
      show expectedPct 1000 1000 10000 0.555 = 0.555
      exact expectedPct_mu 1000 10000 0.555 (by norm_num) (by norm_num)
    rw [hmu]
    show (1000 : ℝ) + 200 * 1 * (((1 : ℚ) : ℝ) - 0.555) = 1089
    push_cast
    norm_num
  · rfl

/-- C6 amended: only `NaN` rates are skipped; `+Infinity` is clamped to rate
1 and `-Infinity` to rate 0 (the clamp runs before the finiteness check);
every surviving rate lies in `[0, 1]`; an entry with an unparseable date is
skipped; and a history consisting only of skipped entries leaves the rating
at `initial` — no entry makes the computation fail. -/
theorem sanitization (P : RatingParams) (entries : List Entry) :
    clampRate JSNum.nan = none ∧
    clampRate JSNum.posInf = some 1 ∧
    clampRate JSNum.negInf = some 0 ∧
    (∀ (x : JSNum) (q : ℚ), clampRate x = some q → 0 ≤ q ∧ q ≤ 1) ∧
    (∀ (R : ℝ) (e : Entry), e.pct = JSNum.nan → ratingStep P R e = R) ∧
    (∀ (R : ℝ) (e : Entry), toUTC e.date = none → ratingStep P R e = R) ∧
    ((∀ e ∈ entries, e.pct = JSNum.nan ∨ toUTC e.date = none) →
      computePlayerRating entries P = P.initial) := by
  refine ⟨rfl, rfl, rfl, ?_, ?_, ?_, ?_⟩
  · intro x q h
    cases x with
    | nan => simp [clampRate] at h
    | posInf =>
        simp only [clampRate, Option.some.injEq] at h
        subst h
        exact ⟨by norm_num, le_refl 1⟩
    | negInf =>
        simp only [clampRate, Option.some.injEq] at h
        subst h
        exact ⟨le_refl 0, by norm_num⟩
    | fin q0 =>
        simp only [clampRate, Option.some.injEq] at h
        subst h
        exact ⟨le_min (by norm_num) (le_max_left 0 q0), min_le_left _ _⟩
  · intro R e he
    apply ratingStep_skip_nan
    rw [he]
    rfl
  · intro R e hw
    exact ratingStep_skip_noparse P R e hw
  · intro hall
    have key : ∀ l : List Entry, (∀ e ∈ l, e.pct = JSNum.nan ∨ toUTC e.date = none) →
        ∀ R : ℝ, l.foldl (ratingStep P) R = R := by
      intro l
      induction l with
      | nil => intro _ R; rfl
      | cons e t ih =>
          intro h R
          simp only [List.foldl_cons]
          have hstep : ratingStep P R e = R := by
            rcases h e (List.mem_cons_self e t) with he | he
            · apply ratingStep_skip_nan
              rw [he]
              rfl
            · exact ratingStep_skip_noparse P R e he
          rw [hstep]
          exact ih (fun x hx => h x (List.mem_cons_of_mem e hx)) R
    unfold computePlayerRating
    refine key (sortEntries entries) (fun e he => hall e ?_) P.initial
    simpa only [sortEntries, List.mem_insertionSort] using he

/-- Witness for C6 at a concrete input: a history whose entries all have a
`NaN` rate or an unparseable date leaves the default-parameter rating at
1000. -/
theorem sanitization_witness :
    computePlayerRating [⟨"nodate", JSNum.fin (1 / 2)⟩, ⟨"2025-09-04", JSNum.nan⟩]
      { today := 0 } = 1000 := by
  refine (sanitization { today := 0 }
    [⟨"nodate", JSNum.fin (1 / 2)⟩, ⟨"2025-09-04", JSNum.nan⟩]).2.2.2.2.2.2 ?_
  intro e he
  rcases List.mem_cons.mp he with rfl | he2
  · right
    decide
  · rcases List.mem_cons.mp he2 with rfl | he3
    · left
      rfl
    · cases he3

/-- C7: for two entries that are identical except for their date (same
clamped rate `q`, both with parseable dates), applied at the same current
rating `R`, with positive `K` and positive half-life, the entry with the
strictly greater age produces a strictly smaller rating movement in absolute
value: `|ΔR| = K · 0.5^(age/H) · |q − E(R)|` is strictly decreasing in the
age (the rate must differ from the expected rate, otherwise both movements
are zero). -/
theorem decay_strictly_shrinks (P : RatingParams) (R : ℝ) (e1 e2 : Entry) (q : ℚ)
    (w1 w2 : ℤ) (hK : 0 < P.K) (hH : 0 < P.halfLifeDays)
    (hc1 : clampRate e1.pct = some q) (hc2 : clampRate e2.pct = some q)
    (hw1 : toUTC e1.date = some w1) (hw2 : toUTC e2.date = some w2)
    (hage : ageDays P.today w1 < ageDays P.today w2)
    (hne : (q : ℝ) ≠ expectedPct R P.mu P.width P.neutral) :
    |ratingStep P R e2 - R| < |ratingStep P R e1 - R| := by
  rw [ratingStep_eq P R e1 q w1 hc1 hw1, ratingStep_eq P R e2 q w2 hc2 hw2]
  simp only [add_sub_cancel_left]
  have hcpos : 0 < |(q : ℝ) - expectedPct R P.mu P.width P.neutral| :=
    abs_pos.mpr (sub_ne_zero.mpr hne)
  have hdlt := decayWeight_strictAnti P.halfLifeDays hH hage
  have hd1pos := decayWeight_pos P.halfLifeDays (ageDays P.today w1)
  have hd2pos := decayWeight_pos P.halfLifeDays (ageDays P.today w2)
  simp only [abs_mul]
  rw [abs_of_pos hK, abs_of_pos hd1pos, abs_of_pos hd2pos]
  exact mul_lt_mul_of_pos_right (mul_lt_mul_of_pos_left hdlt hK) hcpos

/-- Witness for C7: the rate-1 entry aged two days moves the rating by
strictly less than the same entry aged zero days. -/
theorem decay_strictly_shrinks_witness :
    |ratingStep exParams 1000 entryOld - 1000| <
      |ratingStep exParams 1000 entryNew - 1000| := by
  have hne : ((1 : ℚ) : ℝ) ≠
      expectedPct 1000 exParams.mu exParams.width exParams.neutral := by
    have hmu : expectedPct 1000 exParams.mu exParams.width exParams.neutral
        = 0.555 := by
      show expectedPct 1000 1000 10000 0.555 = 0.555
      exact expectedPct_mu 1000 10000 0.555 (by norm_num) (by norm_num)
    rw [hmu]
    push_cast
    norm_num
  exact decay_strictly_shrinks exParams 1000 entryNew entryOld 1 utcEx utcOld
    (by show (0 : ℝ) < 200; norm_num) (by show (0 : ℝ) < 21; norm_num)
    (by decide) (by decide) (by decide) (by decide) (by decide) hne

/-- C1 counterexample: two entries share the same date (`exDate`) with rates
0 and 1.  The sort is stable, so the two input orders are processed in
different sequences, and because the expected rate depends on the current
rating the two folds end at different ratings:
`1089 − 200·E(889) ≠ 1089 − 200·E(1089)` since `E` is strictly increasing.
Permutation invariance therefore fails when two entries share a date. -/
theorem computePlayerRating_order_dependent :
    computePlayerRating [entryLo, entryHi] exParams ≠
      computePlayerRating [entryHi, entryLo] exParams := by
  have hsA : sortEntries [entryLo, entryHi] = [entryLo, entryHi] := by
    simp [sortEntries, List.insertionSort, List.orderedInsert, entryLe,
      entryLo, entryHi]
  have hsB : sortEntries [entryHi, entryLo] = [entryHi, entryLo] := by
    simp [sortEntries, List.insertionSort, List.orderedInsert, entryLe,
      entryLo, entryHi]
  have hc0 : clampRate entryLo.pct = some 0 := by decide
  have hc1 : clampRate entryHi.pct = some 1 := by decide
  have hw0 : toUTC entryLo.date = some utcEx := by decide
  have hw1 : toUTC entryHi.date = some utcEx := by decide
  have hage : ageDays exParams.today utcEx = 0 := by decide
  have hdecay : decayWeight exParams.halfLifeDays (0 : ℤ) = 1 :=
    decayWeight_age_zero exParams.halfLifeDays (by show (0 : ℝ) < 21; norm_num)
  have hmu : expectedPct exParams.initial exParams.mu exParams.width
      exParams.neutral = 0.555 := by
    show expectedPct 1000 1000 10000 0.555 = 0.555
    exact expectedPct_mu 1000 10000 0.555 (by norm_num) (by norm_num)
  have s1 : ratingStep exParams exParams.initial entryLo = 889 := by
    rw [ratingStep_eq exParams exParams.initial entryLo 0 utcEx hc0 hw0, hage,
      hdecay, hmu]
    show (1000 : ℝ) + 200 * 1 * (((0 : ℚ) : ℝ) - 0.555) = 889
    push_cast
    norm_num
  have t1 : ratingStep exParams exParams.initial entryHi = 1089 := by
    rw [ratingStep_eq exParams exParams.initial entryHi 1 utcEx hc1 hw1, hage,
      hdecay, hmu]
    show (1000 : ℝ) + 200 * 1 * (((1 : ℚ) : ℝ) - 0.555) = 1089
    push_cast
    norm_num
  have s2 : ratingStep exParams 889 entryHi
      = 889 + 200 * (1 - expectedPct 889 1000 10000 0.555) := by
    rw [ratingStep_eq exParams 889 entryHi 1 utcEx hc1 hw1, hage, hdecay]
    show (889 : ℝ) + 200 * 1 * (((1 : ℚ) : ℝ) - expectedPct 889 1000 10000 0.555)
      = 889 + 200 * (1 - expectedPct 889 1000 10000 0.555)
    push_cast
    ring
  have t2 : ratingStep exParams 1089 entryLo
      = 1089 - 200 * expectedPct 1089 1000 10000 0.555 := by
    rw [ratingStep_eq exParams 1089 entryLo 0 utcEx hc0 hw0, hage, hdecay]
    show (1089 : ℝ) + 200 * 1 * (((0 : ℚ) : ℝ) - expectedPct 1089 1000 10000 0.555)
      = 1089 - 200 * expectedPct 1089 1000 10000 0.555
    push_cast
    ring
  intro hcontra
  unfold computePlayerRating at hcontra
  rw [hsA, hsB] at hcontra
  simp only [List.foldl_cons, List.foldl_nil] at hcontra
  rw [s1, s2, t1, t2] at hcontra
  have hlt : expectedPct 889 1000 10000 0.555 < expectedPct 1089 1000 10000 0.555 :=
    expectedPct_strictMono 1000 10000 0.555 (by norm_num) (by norm_num)
  linarith

/-- C1 amended: `computePlayerRating` is invariant under permutations of the
history whenever the entries' dates are pairwise distinct (then the stable
date-sort of any permutation is the same list).  With duplicate dates the
stable sort preserves the input order among equal dates and the result can
depend on it (see the counterexample). -/
theorem computePlayerRating_perm_invariant (l1 l2 : List Entry) (P : RatingParams)
    (hperm : l1.Perm l2) (hnd : (l1.map Entry.date).Nodup) :
    computePlayerRating l1 P = computePlayerRating l2 P := by
  have hsorted : ∀ l : List Entry, (l.map Entry.date).Nodup →
      List.Sorted entryLt (sortEntries l) := by
    intro l hl
    have h1 : List.Sorted entryLe (sortEntries l) :=
      List.sorted_insertionSort entryLe l
    have hp : (sortEntries l).Perm l := List.perm_insertionSort entryLe l
    have h2 : ((sortEntries l).map Entry.date).Nodup :=
      ((hp.map Entry.date).nodup_iff).mpr hl
    have h3 : List.Pairwise (fun a b : Entry => a.date ≠ b.date) (sortEntries l) :=
      List.pairwise_map.mp h2
    exact (h1.and h3).imp (fun hab => lt_of_le_of_ne hab.1 hab.2)
  have hnd2 : (l2.map Entry.date).Nodup := ((hperm.map Entry.date).nodup_iff).mp hnd
  have hperm' : (sortEntries l1).Perm (sortEntries l2) :=
    ((List.perm_insertionSort entryLe l1).trans hperm).trans
      (List.perm_insertionSort entryLe l2).symm
  have hs : sortEntries l1 = sortEntries l2 :=
    List.eq_of_perm_of_sorted hperm' (hsorted l1 hnd) (hsorted l2 hnd2)
  unfold computePlayerRating
  rw [hs]

/-- Witness for C1: two entries with distinct dates yield the same rating in
either input order. -/
theorem computePlayerRating_perm_invariant_witness :
    computePlayerRating [⟨"2025-09-01", JSNum.fin 1⟩, ⟨"2025-09-03", JSNum.fin 0⟩]
      { today := 0 } =
    computePlayerRating [⟨"2025-09-03", JSNum.fin 0⟩, ⟨"2025-09-01", JSNum.fin 1⟩]
      { today := 0 } :=
  computePlayerRating_perm_invariant _ _ { today := 0 }
    (List.Perm.swap _ _ _) (by decide)
